import Mathlib

/-!
Verification of `assetpack-plugin-audiosprite` (`src/plugin.js`).

The development shallowly embeds the plugin's transform pipeline:
string helpers mirror the JavaScript string operations used by the code
(`split`, `pop`, `replace` with a non-global pattern, `includes`,
`endsWith`, `join`), a small value type models plain JS option objects
and object-spread merging, and the transform itself is modelled as a
pure function from its collaborators (path mapping, file listing, the
external encoder) to a trace of the effects it performs (encoder
invocation, output writes, tree registration, cache writes).
-/

namespace AP

/-- JS `String.prototype.split(sep)` on a single-character separator,
working over the character list: accumulates the current segment and
cuts at each occurrence of `c`, keeping empty segments. -/
def splitCharAux (c : Char) : List Char → List Char → List (List Char)
  | [], acc => [acc.reverse]
  | x :: xs, acc =>
    if x = c then acc.reverse :: splitCharAux c xs []
    else splitCharAux c xs (x :: acc)

/-- JS `s.split(c)` for a one-character separator `c`. -/
def jsSplit (s : String) (c : Char) : List String :=
  (splitCharAux c s.data []).map String.mk

/-- JS `s.split(c).pop()`: the final segment of the split (the list
produced by `split` is never empty). List-level worker. -/
def lastSplitL (c : Char) (l : List Char) : List Char :=
  (splitCharAux c l []).getLastD []

/-- String-level version of `lastSplitL`: JS `s.split(c).pop()`. -/
def lastSplit (s : String) (c : Char) : String :=
  String.mk (lastSplitL c s.data)

/-- JS `s.includes(c)` for a single character `c`. -/
def containsChar (s : String) (c : Char) : Bool :=
  s.data.any (fun x => x == c)

/-- JS `s.startsWith(pre)`. -/
def jsStartsWith (s pre : String) : Bool :=
  pre.data.isPrefixOf s.data

/-- JS `s.endsWith(suf)`. -/
def jsEndsWith (s suf : String) : Bool :=
  suf.data.isSuffixOf s.data

/-- JS `String.prototype.replace(pat, rep)` with a plain-string (or
non-global one-shot regex) pattern: only the first occurrence of `pat`
is replaced. List-level worker. -/
def replaceFirstL (pat rep : List Char) : List Char → List Char
  | [] => []
  | x :: xs =>
    if pat.isPrefixOf (x :: xs) then rep ++ (x :: xs).drop pat.length
    else x :: replaceFirstL pat rep xs

/-- JS `s.replace(pat, rep)` replacing only the first occurrence. -/
def jsReplaceFirst (s pat rep : String) : String :=
  String.mk (replaceFirstL pat.data rep.data s.data)

/-- JS `Array.prototype.join(sep)`. -/
def jsJoin (sep : String) : List String → String
  | [] => ""
  | [x] => x
  | x :: xs => x ++ sep ++ jsJoin sep xs

/-! ## JS option values and object spread

Plain JS option objects are modelled as association lists from key
strings to a small value type; spread of one object over another is
list append, and property lookup takes the last binding of a key
(later spreads override earlier ones). A function-valued entry is
represented by an opaque identifier. -/

/-- A JS value occurring in the plugin's option objects. -/
inductive Val where
  | undef : Val
  | null : Val
  | str : String → Val
  | num : Int → Val
  | bool : Bool → Val
  | strList : List String → Val
  | fn : Nat → Val
deriving DecidableEq, Repr

/-- A JS object literal: ordered key/value bindings (later wins). -/
abbrev JsObj := List (String × Val)

/-- JS property lookup on an object built by spreads: the latest
binding of `k` wins. -/
def jsGet (o : JsObj) (k : String) : Option Val :=
  o.foldl (fun acc kv => if kv.1 = k then some kv.2 else acc) none

/-- Read a property as a string, with `""` for a missing or
non-string value. -/
def getStrD (o : JsObj) (k : String) : String :=
  match jsGet o k with
  | some (Val.str s) => s
  | _ => ""

/-! ## Node `path` module (POSIX), as used by the plugin

`path.join`, `path.basename` and `path.dirname` come from
`@assetpack/core`'s re-export of Node's `path`; they are external
collaborators modelled here from Node's documented POSIX behaviour for
the argument shapes the plugin produces. -/

/-- Normalisation worker: drops empty and `.` segments and resolves
`..` against the accumulated (reversed) stack; at the root, `..` is
dropped. -/
def normSegsAux (isAbs : Bool) : List String → List String → List String
  | acc, [] => acc.reverse
  | acc, s :: rest =>
    if s = "" ∨ s = "." then normSegsAux isAbs acc rest
    else if s = ".." then
      match acc with
      | [] => if isAbs then normSegsAux isAbs [] rest
              else normSegsAux isAbs [".."] rest
      | a :: as2 =>
        if a = ".." then normSegsAux isAbs (s :: a :: as2) rest
        else normSegsAux isAbs as2 rest
    else normSegsAux isAbs (s :: acc) rest

/-- Node `path.normalize` (POSIX), restricted to forward slashes. -/
def pnormalize (p : String) : String :=
  let isAbs : Bool := jsStartsWith p "/"
  let segs := normSegsAux isAbs [] (jsSplit p '/')
  if isAbs then "/" ++ jsJoin "/" segs
  else if segs.isEmpty then "." else jsJoin "/" segs

/-- Node `path.join(a, b)` (POSIX): empty segments are ignored and the
result is normalised. -/
def pjoin (a b : String) : String :=
  if a = "" then (if b = "" then "." else pnormalize b)
  else if b = "" then pnormalize a
  else pnormalize (a ++ "/" ++ b)

/-- Node `path.basename(p)` (POSIX): last non-empty `/`-segment, `""`
when there is none. -/
def pbasename (p : String) : String :=
  ((jsSplit p '/').filter (fun s => s != "")).getLastD ""

/-- Node `path.dirname(p)` (POSIX): everything before the last `/`,
with `.` for separator-free paths and `/` for top-level entries. -/
def pdirname (p : String) : String :=
  let parts := jsSplit p '/'
  if parts.length ≤ 1 then "."
  else
    let d := jsJoin "/" parts.dropLast
    if d = "" then "/" else d

/-! ## Manifest and option data model (from `src/plugin.js`) -/

/-- The encoder's JSON manifest: the `resources` list the plugin
rewrites, plus all other keys passed through opaquely. -/
structure Manifest where
  resources : List String
  rest : List (String × Val)
deriving DecidableEq, Repr

/-- The raw encoder callback response before the `resources` presence
check (`json.resources` may be absent). -/
structure RawResponse where
  resources : Option (List String)
  rest : List (String × Val)

/-- The resolved `outputJson` option namespace (all defaults filled
in), as consumed by `processAudiospriteFiles`. -/
structure JsonOpts where
  path : Option String
  extension : String
  minify : Bool
  transform : Option (Manifest → String → List String → Manifest)

/-- A caller-supplied `outputJson` object: each field is present or
absent, mirroring the keys of the JS object literal. -/
structure OutputJsonOverride where
  path : Option String := none
  extension : Option String := none
  minify : Option Bool := none
  transform : Option (Manifest → String → List String → Manifest) := none

/-- JS spread of an `outputJson` override over a base: keys present in
the override win, absent keys keep the base value. -/
def spreadJsonOpts (base : JsonOpts) (p : OutputJsonOverride) : JsonOpts :=
  { path := p.path.orElse (fun _ => base.path)
    extension := p.extension.getD base.extension
    minify := p.minify.getD base.minify
    transform := p.transform.orElse (fun _ => base.transform) }

/-- The `outputJson` defaults from `audiosprite`'s `defaultOptions`:
`path: undefined, extension: '.json', minify: false,
transform: undefined`. -/
def defaultJsonOpts : JsonOpts :=
  { path := none, extension := ".json", minify := false, transform := none }

/-- `DEFAULT_IMPORTS_EXTENSIONS` from `src/plugin.js`. -/
def DEFAULT_IMPORTS_EXTENSIONS : List String :=
  ["aac", "ac3", "aiff", "caf", "flac", "mp3", "mp4", "m4a", "ogg",
   "opus", "wav", "webm"]

/-- The `tags` default object: key `audiosprite` mapped to
`'audiosprite'`. -/
def defaultTagsObj : JsObj := [("audiosprite", Val.str "audiosprite")]

/-- `defaultOptions.tags`: the default tags object spread-merged with
`options?.tags`. -/
def mergeTagsObj (caller : Option JsObj) : JsObj :=
  defaultTagsObj ++ caller.getD []

/-- The `outputJson` default object, as a JS object literal. The
`transform` default is `undefined`. -/
def defaultOutputJsonObj : JsObj :=
  [("path", Val.undef), ("extension", Val.str ".json"),
   ("minify", Val.bool false), ("transform", Val.undef)]

/-- `defaultOptions.outputJson`: the defaults spread-merged with
`options?.outputJson`. -/
def mergeOutputJsonObj (caller : Option JsObj) : JsObj :=
  defaultOutputJsonObj ++ caller.getD []

/-- The Audiosprite encoder-option defaults listed in
`defaultOptions.audiosprite` (before the caller spread). -/
def audiospriteDefaultsObj : JsObj :=
  [("output", Val.undef), ("path", Val.str ""),
   ("export", Val.str "ogg,m4a,mp3,ac3"), ("format", Val.str "jukebox"),
   ("autoplay", Val.null), ("loop", Val.strList []),
   ("silence", Val.num 0), ("gap", Val.num 1), ("minlength", Val.num 0),
   ("bitrate", Val.num 128), ("vbr", Val.num (-1)),
   ("vbr:vorbis", Val.num (-1)), ("samplerate", Val.num 44100),
   ("channels", Val.num 1), ("rawparts", Val.str ""),
   ("ignorerounding", Val.num 0)]

/-- `defaultOptions.audiosprite`: the encoder defaults spread-merged
with `options?.audiosprite`. -/
def mergeAudiospriteObj (caller : Option JsObj) : JsObj :=
  audiospriteDefaultsObj ++ caller.getD []

/-- `defaultOptions.imports = options?.imports ??
DEFAULT_IMPORTS_EXTENSIONS` (wholesale replacement). -/
def resolveImports (caller : Option (List String)) : List String :=
  caller.getD DEFAULT_IMPORTS_EXTENSIONS

/-- `defaultOptions.nested = options?.nested ?? true` (wholesale
replacement). -/
def resolveNested (caller : Option Bool) : Bool :=
  caller.getD true

/-- The plugin's option surface: the object shape accepted both by the
`audiosprite(options)` constructor and by the per-transform `opts`. -/
structure PluginOpts where
  tags : Option JsObj := none
  imports : Option (List String) := none
  nested : Option Bool := none
  outputJson : OutputJsonOverride := {}
  audiospriteObj : Option JsObj := none

/-! ## Transform pipeline (lines 104-176 and 200-242 of
`src/plugin.js`) -/

/-- A cache record value: one entry of `cacheMap` in the transform
(`TransformDataFile`). -/
structure TransformDataFile where
  name : String
  paths : List String
deriving DecidableEq, Repr

/-- One observable call the transform makes on its collaborators:
the encoder invocation, `processor.saveToOutput`,
`processor.addToTree`, or `SavableAssetCache.set`. -/
inductive Effect where
  | encode (files : List String) (opts : JsObj)
  | save (path : String) (data : String)
  | addToTree (path : String)
  | cacheSet (key : String) (files : List TransformDataFile)
deriving DecidableEq, Repr

/-- Result of one `transform` call: the ordered effect trace and the
error thrown, if any. -/
structure TransformResult where
  effects : List Effect
  error : Option String
deriving DecidableEq, Repr

/-- Serialisation of a `Val`, for the manifest bytes model. -/
def serializeVal : Val → String
  | Val.undef => "null"
  | Val.null => "null"
  | Val.str s => "\"" ++ s ++ "\""
  | Val.num n => toString n
  | Val.bool b => if b then "true" else "false"
  | Val.strList l => "[" ++ jsJoin "," (l.map (fun s => "\"" ++ s ++ "\"")) ++ "]"
  | Val.fn id => "\"function#" ++ toString id ++ "\""

/-- `JSON.stringify(json, null, jsonOpts.minify ? undefined : 2)`:
renders the manifest to text, with two-space indentation unless
`minify` is set. Modelled for the `Manifest` value shape. -/
def serializeManifest (m : Manifest) (minify : Bool) : String :=
  let colon := if minify then ":" else ": "
  let sep := if minify then "," else ",\n  "
  let obr := if minify then "\x7b" else "\x7b\n  "
  let cbr := if minify then "\x7d" else "\n\x7d"
  let fields :=
    ("\"resources\"" ++ colon ++ "[" ++
      jsJoin "," (m.resources.map (fun s => "\"" ++ s ++ "\"")) ++ "]") ::
    m.rest.map (fun kv => "\"" ++ kv.1 ++ "\"" ++ colon ++ serializeVal kv.2)
  obr ++ jsJoin sep fields ++ cbr

/-- The renamed manifest path of `processAudiospriteFiles`:
`path.join(jsonOpts.path ?? path.dirname(outputPath),
outputPath.split('/').pop().replace('.json', jsonOpts.extension))`. -/
def manifestOutPath (jsonOpts : JsonOpts) (outputPath : String) : String :=
  let outDir := jsonOpts.path.getD (pdirname outputPath)
  let outName := jsReplaceFirst (lastSplit outputPath '/') ".json" jsonOpts.extension
  pjoin outDir outName

/-- The manifest branch of the `processAudiospriteFiles` loop body:
rename the manifest, rewrite `resources` to bare filenames, apply the
user transform callback if configured, and serialise. Returns the new
working manifest, the final path, and the emitted bytes. -/
def reconcileManifest (jsonOpts : JsonOpts) (outputPath : String)
    (json : Manifest) : Manifest × String × String :=
  let outputPathOverride := manifestOutPath jsonOpts outputPath
  let resourcePaths := json.resources
  let json1 : Manifest :=
    { json with resources := resourcePaths.map (fun p => lastSplit p '/') }
  let json2 :=
    match jsonOpts.transform with
    | some f => f json1 outputPathOverride resourcePaths
    | none => json1
  (json2, outputPathOverride, serializeManifest json2 jsonOpts.minify)

/-- Loop state of `processAudiospriteFiles`: the (mutated) working
manifest, the `outputFilePaths` accumulator, and the save effects. -/
structure ProcState where
  json : Manifest
  outs : List String
  effs : List Effect

/-- One iteration of the loop over `files` in
`processAudiospriteFiles`: entries whose extension is not `json` pass
through; `.json` entries are renamed, rewritten, and saved. -/
def processOne (jsonOpts : JsonOpts) (st : ProcState) (outputPath : String) :
    ProcState :=
  if lastSplit outputPath '.' ≠ "json" then
    { st with outs := st.outs ++ [outputPath] }
  else
    let r := reconcileManifest jsonOpts outputPath st.json
    { json := r.1, outs := st.outs ++ [r.2.1],
      effs := st.effs ++ [Effect.save r.2.1 r.2.2] }

/-- `processAudiospriteFiles(files, ...)` with collaborators
abstracted: folds the loop body over the emitted file list. -/
def processFiles (jsonOpts : JsonOpts) (files : List String)
    (json : Manifest) : ProcState :=
  files.foldl (processOne jsonOpts) { json := json, outs := [], effs := [] }

/-- Whether one file matches the glob pattern built from the tagged
folder and the import-format string (brace alternatives separated by
commas): the file lies under the folder and its name ends in one of
the alternatives, each prefixed by the literal dot of the pattern.
Modelled from the external glob library's documented semantics for
patterns of this shape. -/
def globMatch (treePath : String) (importsFormats : String)
    (file : String) : Bool :=
  jsStartsWith file (treePath ++ "/") &&
    (jsSplit importsFormats ',').any (fun e => jsEndsWith file ("." ++ e))

/-- `(opts?.imports ?? defaultOptions.imports).join(',')
.replace(/\./, '')`: the joined import list with only the first `.`
removed. -/
def importsFormatsOf (imports : List String) : String :=
  jsReplaceFirst (jsJoin "," imports) "." ""

/-- The resolved import format string of one transform call. -/
def resolvedImportsFormats (ctor opts : PluginOpts) : String :=
  importsFormatsOf (opts.imports.getD (resolveImports ctor.imports))

/-- The resolved `nested` flag: `opts.nested ?? defaultOptions.nested`. -/
def resolvedNestedFlag (ctor opts : PluginOpts) : Bool :=
  opts.nested.getD (resolveNested ctor.nested)

/-- The resolved `outputJson` options of one transform call:
`defaultOptions.outputJson` spread-merged with `opts.outputJson`. -/
def resolvedJsonOpts (ctor opts : PluginOpts) : JsonOpts :=
  spreadJsonOpts (spreadJsonOpts defaultJsonOpts ctor.outputJson) opts.outputJson

/-- The derived encoder `output` base name:
`nested ? path.join(outputPath, path.basename(outputPath)) :
outputPath`. -/
def derivedOutput (nested : Bool) (outputPath : String) : String :=
  if nested then pjoin outputPath (pbasename outputPath) else outputPath

/-- The transform's `audiospriteOpts` object:
`defaultOptions.audiosprite`, then the derived `output`, then the
caller's `opts.audiosprite`, spread in that order. -/
def resolvedAudiospriteObj (ctorAudio optsAudio : Option JsObj)
    (nested : Bool) (outputPath : String) : JsObj :=
  mergeAudiospriteObj ctorAudio ++
    [("output", Val.str (derivedOutput nested outputPath))] ++
    optsAudio.getD []

/-- The external collaborators of one transform call: the tagged
folder, the pipeline's path mapping and trimming functions, the files
visible to the glob, and the external encoder. -/
structure TransformEnv where
  treePath : String
  inputToOutput : String → String
  trimOutputPath : String → String
  fsFiles : List String
  encode : List String → JsObj → RawResponse

/-- The glob collection step: `await glob(globPath)`. -/
def collectFiles (env : TransformEnv) (ctor opts : PluginOpts) : List String :=
  env.fsFiles.filter (globMatch env.treePath (resolvedImportsFormats ctor opts))

/-- Audio resource path computation (lines 130-131):
`file.includes('/') ? path.join(audiospriteOpts.path, file) : file`. -/
def audioFilePath (apath : String) (f : String) : String :=
  if containsChar f '/' then pjoin apath f else f

/-- The `cacheMap` update for one emitted path (lines 144-157):
manifest outputs are grouped by path, each accumulating its trimmed
output path. -/
def cacheStep (ext : String) (trim : String → String)
    (acc : List (String × TransformDataFile)) (out : String) :
    List (String × TransformDataFile) :=
  if jsEndsWith out ext then
    if (acc.find? (fun kv => kv.1 == out)).isSome then
      acc.map (fun kv =>
        if kv.1 == out then (kv.1, { kv.2 with paths := kv.2.paths ++ [trim out] })
        else kv)
    else acc ++ [(out, { name := trim out, paths := [trim out] })]
  else acc

/-- `[...cacheMap.values()]` after the loop over `outs`. -/
def buildCacheFiles (outs : List String) (ext : String)
    (trim : String → String) : List TransformDataFile :=
  (outs.foldl (cacheStep ext trim) []).map (fun kv => kv.2)

/-- The error message thrown when the encoder response has no
`resources` key. -/
def malformedManifestMsg : String :=
  "Audiosprite emitted malformed JSON. Key 'resources' is required."

/-- The `transform(tree, processor, opts)` method of the plugin built
by `audiosprite(ctor)`: resolves options, collects files, invokes the
encoder, post-processes the emitted files, and registers outputs and
the cache entry. The returned trace lists the collaborator calls in
program order. -/
def runTransform (env : TransformEnv) (ctor opts : PluginOpts) :
    TransformResult :=
  let outputPath := env.inputToOutput env.treePath
  let nested := resolvedNestedFlag ctor opts
  let jsonOpts := resolvedJsonOpts ctor opts
  let audiospriteOpts :=
    resolvedAudiospriteObj ctor.audiospriteObj opts.audiospriteObj nested outputPath
  let files := collectFiles env ctor opts
  if files.length = 0 then { effects := [], error := none }
  else
    let json := env.encode files audiospriteOpts
    match json.resources with
    | none =>
      { effects := [Effect.encode files audiospriteOpts],
        error := some malformedManifestMsg }
    | some resources =>
      let apath := getStrD audiospriteOpts "path"
      let aout := getStrD audiospriteOpts "output"
      let jsonFile := pjoin apath (aout ++ ".json")
      let audioFiles := resources.map (audioFilePath apath)
      let emitted := jsonFile :: audioFiles
      let st := processFiles jsonOpts emitted
        { resources := resources, rest := json.rest }
      let cacheFiles := buildCacheFiles st.outs jsonOpts.extension env.trimOutputPath
      { effects := Effect.encode files audiospriteOpts :: st.effs ++
          st.outs.map Effect.addToTree ++
          [Effect.cacheSet env.treePath cacheFiles],
        error := none }

/-- Disk contents after one effect: `saveToOutput` creates (or
overwrites) a file; no effect of the transform removes one. -/
def applyEffect (disk : List String) (e : Effect) : List String :=
  match e with
  | Effect.save p _ => p :: disk
  | _ => disk

/-- Disk contents after a whole effect trace. -/
def applyEffects (disk : List String) (effs : List Effect) : List String :=
  effs.foldl applyEffect disk

/-- An effect that changes pipeline state (anything but the encoder
invocation itself). -/
def isWriteEffect : Effect → Bool
  | Effect.encode _ _ => false
  | _ => true

/-! ## Concrete scenario constants (the spec's `sfx` folder) -/

/-- The spec's scenario: tagged folder `/raw/sfx` mapping to
`/abs/out/sfx`, containing `cry.wav` and `laugh.mp3`; the encoder
reports two absolute `.ogg` resources. -/
def sfxEnv : TransformEnv :=
  { treePath := "/raw/sfx"
    inputToOutput := fun _ => "/abs/out/sfx"
    trimOutputPath := fun s => s
    fsFiles := ["/raw/sfx/cry.wav", "/raw/sfx/laugh.mp3"]
    encode := fun _ _ =>
      { resources := some ["/abs/out/sfx/cry.ogg", "/abs/out/sfx/laugh.ogg"]
        rest := [] } }

/-- Caller options for the rename scenario:
`outputJson.extension = ".data.json"`. -/
def sfxOpts : PluginOpts := { outputJson := { extension := some ".data.json" } }

/-- Empty plugin options (both constructor and transform level). -/
def noOpts : PluginOpts := {}

/-- The scenario folder with no matching audio files. -/
def emptyFolderEnv : TransformEnv :=
  { sfxEnv with fsFiles := ["/raw/sfx/readme.txt"] }

/-- The scenario encoder that responds without a `resources` key. -/
def malformedEnv : TransformEnv :=
  { sfxEnv with encode := fun _ _ => { resources := none, rest := [] } }

/-- A concrete user transform callback that records its second and
third arguments into the manifest it returns. -/
def recordingCallback : Manifest → String → List String → Manifest :=
  fun mm p rs => { mm with rest := [("jsonPath", Val.str p),
                                    ("originalResources", Val.strList rs)] }

/-- `outputJson` options carrying the recording callback. -/
def recordingJsonOpts : JsonOpts :=
  { defaultJsonOpts with transform := some recordingCallback }

/-- A sample raw manifest mixing absolute and bare resource entries. -/
def sampleManifest : Manifest :=
  { resources := ["/abs/out/sfx/cry.ogg", "laugh.ogg"], rest := [] }

/-! # Theorems -/

/-! ## General lemmas about the string model -/

theorem data_append (a b : String) : (a ++ b).data = a.data ++ b.data := by
  cases a; cases b; rfl

theorem mk_data (s : String) : String.mk s.data = s := rfl

/-- The split never produces an empty list of segments. -/
theorem splitCharAux_ne_nil (c : Char) (l acc : List Char) :
    splitCharAux c l acc ≠ [] := by
  induction l generalizing acc with
  | nil => simp [splitCharAux]
  | cons x xs ih =>
    simp only [splitCharAux]
    split
    · simp
    · exact ih _

/-- Every segment produced by the split is free of the separator,
provided the accumulator is. -/
theorem splitCharAux_not_mem (c : Char) (l : List Char) :
    ∀ acc, c ∉ acc → ∀ seg ∈ splitCharAux c l acc, c ∉ seg := by
  induction l with
  | nil =>
    intro acc hacc seg hseg
    simp [splitCharAux] at hseg
    subst hseg
    simpa using hacc
  | cons x xs ih =>
    intro acc hacc seg hseg
    by_cases hx : x = c
    · simp [splitCharAux, hx] at hseg
      rcases hseg with h | h
      · subst h; simpa using hacc
      · exact ih [] (by simp) seg h
    · simp [splitCharAux, hx] at hseg
      refine ih (x :: acc) ?_ seg hseg
      intro hmem
      rcases List.mem_cons.mp hmem with h | h
      · exact hx h.symm
      · exact hacc h

/-- Splitting a separator-free list yields a single segment. -/
theorem splitCharAux_of_not_mem (c : Char) (l : List Char) :
    ∀ acc, c ∉ l → splitCharAux c l acc = [acc.reverse ++ l] := by
  induction l with
  | nil => intro acc _; simp [splitCharAux]
  | cons x xs ih =>
    intro acc h
    have hx : x ≠ c := fun hc => h (by simp [hc])
    have hxs : c ∉ xs := fun hc => h (by simp [hc])
    simp [splitCharAux, hx, ih (x :: acc) hxs, List.append_assoc]

/-- Splitting at the first separator occurrence: the part before the
separator becomes one segment and the rest is split afresh. -/
theorem splitCharAux_append_sep (c : Char) (l1 l2 : List Char) :
    ∀ acc, c ∉ l1 →
      splitCharAux c (l1 ++ c :: l2) acc =
        (acc.reverse ++ l1) :: splitCharAux c l2 [] := by
  induction l1 with
  | nil => intro acc _; simp [splitCharAux]
  | cons x xs ih =>
    intro acc h
    have hx : x ≠ c := fun hc => h (by simp [hc])
    have hxs : c ∉ xs := fun hc => h (by simp [hc])
    simp [splitCharAux, hx, ih (x :: acc) hxs, List.append_assoc]

theorem getLastD_mem {α : Type} (l : List α) (d : α) (h : l ≠ []) :
    l.getLastD d ∈ l := by
  induction l with
  | nil => exact absurd rfl h
  | cons x xs ih =>
    cases xs with
    | nil => simp [List.getLastD]
    | cons y ys =>
      have := ih (by simp)
      simp only [List.getLastD] at this ⊢
      exact List.mem_cons_of_mem x this

/-- The last segment of a split contains no separator. -/
theorem lastSplitL_not_mem (c : Char) (l : List Char) : c ∉ lastSplitL c l := by
  have h := splitCharAux_not_mem c l [] (by simp)
  exact h _ (getLastD_mem _ _ (splitCharAux_ne_nil c l []))

/-- Taking the last `c`-segment of a separator-free list is the
identity. -/
theorem lastSplitL_of_not_mem (c : Char) (l : List Char) (h : c ∉ l) :
    lastSplitL c l = l := by
  simp [lastSplitL, splitCharAux_of_not_mem c l [] h]

/-- JS `split(c).pop()` is idempotent. -/
theorem lastSplitL_idem (c : Char) (l : List Char) :
    lastSplitL c (lastSplitL c l) = lastSplitL c l :=
  lastSplitL_of_not_mem c _ (lastSplitL_not_mem c l)

theorem containsChar_eq_false_of_not_mem (l : List Char) (c : Char)
    (h : c ∉ l) : containsChar (String.mk l) c = false := by
  simp only [containsChar]
  rw [List.any_eq_false]
  intro x hx
  simp only [beq_iff_eq]
  intro hxc
  exact h (hxc ▸ hx)

/-- The last `c`-segment of a string never contains `c`. -/
theorem containsChar_lastSplit (s : String) (c : Char) :
    containsChar (lastSplit s c) c = false :=
  containsChar_eq_false_of_not_mem _ _ (lastSplitL_not_mem c s.data)

/-- String form of idempotence of `split(c).pop()`. -/
theorem lastSplit_idem (s : String) (c : Char) :
    lastSplit (lastSplit s c) c = lastSplit s c := by
  simp [lastSplit, lastSplitL_idem]

theorem jsGet_foldl_eq (k : String) (b : JsObj) :
    ∀ init : Option Val,
      b.foldl (fun acc kv => if kv.1 = k then some kv.2 else acc) init =
        (jsGet b k).orElse (fun _ => init) := by
  induction b with
  | nil => intro init; simp [jsGet]
  | cons kv bs ih =>
    intro init
    by_cases h : kv.1 = k
    · simp only [List.foldl_cons, if_pos h]
      rw [ih]
      have hc : jsGet (kv :: bs) k = (jsGet bs k).orElse (fun _ => some kv.2) := by
        simp only [jsGet, List.foldl_cons, if_pos h]
        exact ih (some kv.2)
      rw [hc]
      cases jsGet bs k <;> simp [Option.orElse]
    · simp only [List.foldl_cons, if_neg h]
      rw [ih]
      have hc : jsGet (kv :: bs) k = jsGet bs k := by
        simp only [jsGet, List.foldl_cons, if_neg h]
      rw [hc]

/-- Spread semantics of property lookup: a later spread wins, an
absent key falls back to the earlier object. -/
theorem jsGet_append (a b : JsObj) (k : String) :
    jsGet (a ++ b) k = (jsGet b k).orElse (fun _ => jsGet a k) := by
  show List.foldl _ none (a ++ b) = _
  rw [List.foldl_append]
  exact jsGet_foldl_eq k b (jsGet a k)

/-- Rewriting resource lists to bare filenames is a fixed point of
itself. -/
theorem map_lastSplit_fix (l : List String) :
    (l.map (fun p => lastSplit p '/')).map (fun p => lastSplit p '/') =
      l.map (fun p => lastSplit p '/') := by
  induction l with
  | nil => simp
  | cons x xs ih => simp [lastSplit_idem, ih]

/-- Entries whose extension is not `json` pass through the
`processAudiospriteFiles` loop untouched and produce no effects. -/
theorem processFiles_passthrough (jsonOpts : JsonOpts) :
    ∀ (files : List String) (st : ProcState),
      (∀ f ∈ files, lastSplit f '.' ≠ "json") →
      files.foldl (processOne jsonOpts) st = { st with outs := st.outs ++ files } := by
  intro files
  induction files with
  | nil => intro st _; simp
  | cons f fs ih =>
    intro st h
    have hf : lastSplit f '.' ≠ "json" := h f (by simp)
    have hfs : ∀ g ∈ fs, lastSplit g '.' ≠ "json" := fun g hg => h g (by simp [hg])
    simp only [List.foldl_cons]
    rw [show processOne jsonOpts st f = { st with outs := st.outs ++ [f] } from by
      simp [processOne, hf]]
    rw [ih _ hfs]
    simp

/-- No transform effect ever removes a file from disk. -/
theorem mem_applyEffects (effs : List Effect) :
    ∀ (disk : List String) (p : String), p ∈ disk → p ∈ applyEffects disk effs := by
  induction effs with
  | nil => intro disk p h; simpa [applyEffects] using h
  | cons e es ih =>
    intro disk p h
    have : p ∈ applyEffect disk e := by
      cases e <;> simp [applyEffect, h]
    simpa [applyEffects] using ih _ p this

/-! ## Claim theorems -/

/-- C1 (counterexample): in the spec's `.data.json` rename scenario the
transform writes the renamed manifest `/abs/out/sfx/sfx.data.json` and
registers it, but performs no removal: a raw manifest present at
`/abs/out/sfx/sfx.json` before the transform still exists afterwards,
contradicting the claim that it no longer exists. -/
theorem raw_manifest_not_removed_cx :
    "/abs/out/sfx/sfx.json" ∈
      applyEffects ["/abs/out/sfx/sfx.json"]
        (runTransform sfxEnv noOpts sfxOpts).effects ∧
    Effect.addToTree "/abs/out/sfx/sfx.data.json" ∈
      (runTransform sfxEnv noOpts sfxOpts).effects ∧
    (runTransform sfxEnv noOpts sfxOpts).error = none := by
  refine ⟨by decide, by decide, by decide⟩

/-- C1 (amended): the transform never removes any file: every path on
disk before the transform is still on disk after its effect trace is
applied, whether or not the manifest was renamed. -/
theorem raw_manifest_persists (env : TransformEnv) (ctor opts : PluginOpts)
    (disk : List String) (p : String) (h : p ∈ disk) :
    p ∈ applyEffects disk (runTransform env ctor opts).effects :=
  mem_applyEffects _ _ _ h

/-- C1 witness: the amended theorem applied to the rename scenario. -/
theorem raw_manifest_persists_witness :
    "/abs/out/sfx/sfx.json" ∈ (["/abs/out/sfx/sfx.json"] : List String) ∧
    "/abs/out/sfx/sfx.json" ∈
      applyEffects ["/abs/out/sfx/sfx.json"]
        (runTransform sfxEnv noOpts sfxOpts).effects :=
  ⟨by decide, raw_manifest_persists sfxEnv noOpts sfxOpts
    ["/abs/out/sfx/sfx.json"] "/abs/out/sfx/sfx.json" (by decide)⟩

/-- C2 (counterexample): the caller can change the encoder `output`
value: supplying `audiosprite: \x7b output: '/custom/place' \x7d` in the
transform opts makes the resolved `output` `/custom/place`, not the
pipeline-derived value, refuting the claim that the caller cannot
cause a different `output`. -/
theorem encoder_output_override_cx :
    jsGet (resolvedAudiospriteObj none (some [("output", Val.str "/custom/place")])
        true "/abs/out/sfx") "output" = some (Val.str "/custom/place") ∧
    some (Val.str "/custom/place") ≠
      some (Val.str (derivedOutput true "/abs/out/sfx")) := by
  refine ⟨by decide, by decide⟩

/-- C2 (amended): whenever the caller's `audiosprite` options carry no
`output` key, the resolved encoder `output` equals the derived value —
`join(outputPath, basename(outputPath))` when nested, `outputPath`
otherwise — and a constructor-level `output` is also overridden by the
derived value. -/
theorem encoder_output_derived (ctorAudio optsAudio : Option JsObj)
    (nested : Bool) (outputPath : String)
    (h : jsGet (optsAudio.getD []) "output" = none) :
    jsGet (resolvedAudiospriteObj ctorAudio optsAudio nested outputPath)
        "output" = some (Val.str (derivedOutput nested outputPath)) ∧
    derivedOutput true outputPath = pjoin outputPath (pbasename outputPath) ∧
    derivedOutput false outputPath = outputPath := by
  refine ⟨?_, rfl, rfl⟩
  show jsGet ((mergeAudiospriteObj ctorAudio ++
      [("output", Val.str (derivedOutput nested outputPath))]) ++
      optsAudio.getD []) "output" = _
  rw [jsGet_append, h]
  rw [jsGet_append]
  simp [jsGet, Option.orElse]

/-- C2 witness: the amended theorem at a concrete nested scenario with
no caller-supplied `output`. -/
theorem encoder_output_derived_witness :
    jsGet ((none : Option JsObj).getD []) "output" = none ∧
    (jsGet (resolvedAudiospriteObj (some [("bitrate", Val.num 64)]) none
        true "/abs/out/sfx") "output" =
      some (Val.str (derivedOutput true "/abs/out/sfx")) ∧
    derivedOutput true "/abs/out/sfx" =
      pjoin "/abs/out/sfx" (pbasename "/abs/out/sfx") ∧
    derivedOutput false "/abs/out/sfx" = "/abs/out/sfx") :=
  ⟨by decide, encoder_output_derived (some [("bitrate", Val.num 64)]) none
    true "/abs/out/sfx" (by decide)⟩

/-- C3 (counterexample): supplying an `outputJson` object that only
sets `extension` does not discard the default `minify` field: the
resolved object still binds `minify` to `false` although the caller's
object has no `minify` key, refuting wholesale replacement of the
`outputJson` namespace. -/
theorem outputJson_defaults_survive_cx :
    jsGet (mergeOutputJsonObj (some [("extension", Val.str ".data.json")]))
        "minify" = some (Val.bool false) ∧
    jsGet [("extension", Val.str ".data.json")] "minify" = none := by
  refine ⟨by decide, by decide⟩

/-- C3 (amended): the merge policy is: `tags`, `outputJson` and
`audiosprite` are each merged key-by-key (caller keys win, defaults
for absent keys survive), while `imports` and `nested` are replaced
wholesale when supplied. -/
theorem option_merge_policy :
    (∀ (c : JsObj) (k : String), jsGet (mergeTagsObj (some c)) k =
      (jsGet c k).orElse (fun _ => jsGet defaultTagsObj k)) ∧
    (∀ (c : JsObj) (k : String), jsGet (mergeOutputJsonObj (some c)) k =
      (jsGet c k).orElse (fun _ => jsGet defaultOutputJsonObj k)) ∧
    (∀ (c : JsObj) (k : String), jsGet (mergeAudiospriteObj (some c)) k =
      (jsGet c k).orElse (fun _ => jsGet audiospriteDefaultsObj k)) ∧
    (∀ l, resolveImports (some l) = l) ∧
    (∀ b, resolveNested (some b) = b) :=
  ⟨fun c k => jsGet_append defaultTagsObj c k,
   fun c k => jsGet_append defaultOutputJsonObj c k,
   fun c k => jsGet_append audiospriteDefaultsObj c k,
   fun _ => rfl, fun _ => rfl⟩

/-- C4: with no user callback configured, reconciliation rewrites the
manifest's `resources` to exactly the trailing filename component of
each original entry, in order, and no entry of the result contains a
path separator. -/
theorem manifest_resources_bare (jsonOpts : JsonOpts) (outputPath : String)
    (m : Manifest) (h : jsonOpts.transform = none) :
    (reconcileManifest jsonOpts outputPath m).1.resources =
      m.resources.map (fun r => lastSplit r '/') ∧
    ∀ r ∈ (reconcileManifest jsonOpts outputPath m).1.resources,
      containsChar r '/' = false := by
  have hres : (reconcileManifest jsonOpts outputPath m).1.resources = m.resources.map (fun r => lastSplit r '/') := by
    simp [reconcileManifest, h]
  refine ⟨hres, ?_⟩
  intro r hr
  rw [hres] at hr
  rcases List.mem_map.mp hr with ⟨a, _, rfl⟩
  exact containsChar_lastSplit a '/'

/-- C4 witness: the theorem at a raw manifest mixing an absolute and a
bare resource entry. -/
theorem manifest_resources_bare_witness :
    defaultJsonOpts.transform = none ∧
    ((reconcileManifest defaultJsonOpts "/abs/out/sfx/sfx.json"
        sampleManifest).1.resources =
      sampleManifest.resources.map (fun r => lastSplit r '/') ∧
    ∀ r ∈ (reconcileManifest defaultJsonOpts "/abs/out/sfx/sfx.json"
        sampleManifest).1.resources, containsChar r '/' = false) :=
  ⟨rfl, manifest_resources_bare defaultJsonOpts "/abs/out/sfx/sfx.json"
    sampleManifest rfl⟩

/-- C5: when the glob collection yields no files, the transform
performs no further work at all: no encoder invocation, no write, no
tree registration, no cache entry, and no error. -/
theorem empty_collection_noop (env : TransformEnv) (ctor opts : PluginOpts)
    (h : collectFiles env ctor opts = []) :
    runTransform env ctor opts = { effects := [], error := none } := by
  have hlen : (collectFiles env ctor opts).length = 0 := by simp [h]
  simp only [runTransform]
  rw [if_pos hlen]

/-- C5 witness: the theorem at a folder whose only file matches none
of the allowed extensions. -/
theorem empty_collection_noop_witness :
    collectFiles emptyFolderEnv noOpts noOpts = [] ∧
    runTransform emptyFolderEnv noOpts noOpts = { effects := [], error := none } :=
  ⟨by decide, empty_collection_noop emptyFolderEnv noOpts noOpts (by decide)⟩

/-- C6: when the encoder's response lacks a `resources` key, the
transform fails with the malformed-manifest error and its trace holds
only the encoder invocation: nothing was saved, registered, or
cached. -/
theorem malformed_manifest_fails (env : TransformEnv) (ctor opts : PluginOpts)
    (h1 : collectFiles env ctor opts ≠ [])
    (h2 : (env.encode (collectFiles env ctor opts)
        (resolvedAudiospriteObj ctor.audiospriteObj opts.audiospriteObj
          (resolvedNestedFlag ctor opts)
          (env.inputToOutput env.treePath))).resources = none) :
    runTransform env ctor opts =
      { effects := [Effect.encode (collectFiles env ctor opts)
          (resolvedAudiospriteObj ctor.audiospriteObj opts.audiospriteObj
            (resolvedNestedFlag ctor opts) (env.inputToOutput env.treePath))],
        error := some malformedManifestMsg } ∧
    (runTransform env ctor opts).effects.all
      (fun e => !(isWriteEffect e)) = true := by
  have hlen : ¬ (collectFiles env ctor opts).length = 0 := by
    simpa [List.length_eq_zero] using h1
  have hmain : runTransform env ctor opts =
      { effects := [Effect.encode (collectFiles env ctor opts)
          (resolvedAudiospriteObj ctor.audiospriteObj opts.audiospriteObj
            (resolvedNestedFlag ctor opts) (env.inputToOutput env.treePath))],
        error := some malformedManifestMsg } := by
    simp only [runTransform]
    rw [if_neg hlen, h2]
  exact ⟨hmain, by rw [hmain]; rfl⟩

/-- C6 witness: the theorem at a concrete encoder responding without
`resources`. -/
theorem malformed_manifest_fails_witness :
    collectFiles malformedEnv noOpts noOpts ≠ [] ∧
    (malformedEnv.encode (collectFiles malformedEnv noOpts noOpts)
        (resolvedAudiospriteObj noOpts.audiospriteObj noOpts.audiospriteObj
          (resolvedNestedFlag noOpts noOpts)
          (malformedEnv.inputToOutput malformedEnv.treePath))).resources = none ∧
    (runTransform malformedEnv noOpts noOpts =
      { effects := [Effect.encode (collectFiles malformedEnv noOpts noOpts)
          (resolvedAudiospriteObj noOpts.audiospriteObj noOpts.audiospriteObj
            (resolvedNestedFlag noOpts noOpts)
            (malformedEnv.inputToOutput malformedEnv.treePath))],
        error := some malformedManifestMsg } ∧
    (runTransform malformedEnv noOpts noOpts).effects.all
      (fun e => !(isWriteEffect e)) = true) :=
  ⟨by decide, rfl,
    malformed_manifest_fails malformedEnv noOpts noOpts (by decide) rfl⟩

/-- C7: each encoder resource is placed at
`path.join(encodeOptions.path, entry)` when the entry embeds a path
separator and at the bare entry otherwise, and all such audio paths
(whose extension is not `json`) pass through the post-processing loop
unchanged, in order, with no save effect and no manifest rewrite. -/
theorem audio_resources_passthrough (jsonOpts : JsonOpts) (apath : String)
    (resources : List String) (m : Manifest)
    (h : ∀ r ∈ resources, lastSplit (audioFilePath apath r) '.' ≠ "json") :
    processFiles jsonOpts (resources.map (audioFilePath apath)) m =
      { json := m, outs := resources.map (audioFilePath apath), effs := [] } ∧
    ∀ r, audioFilePath apath r =
      if containsChar r '/' then pjoin apath r else r := by
  refine ⟨?_, fun r => rfl⟩
  have hall : ∀ f ∈ resources.map (audioFilePath apath),
      lastSplit f '.' ≠ "json" := by
    intro f hf
    rcases List.mem_map.mp hf with ⟨r, hr, rfl⟩
    exact h r hr
  have := processFiles_passthrough jsonOpts (resources.map (audioFilePath apath))
    { json := m, outs := [], effs := [] } hall
  simpa [processFiles] using this

/-- C7 witness: the theorem at the scenario's resource list (one
absolute path, one bare filename) with the default empty encoder
`path`. -/
theorem audio_resources_passthrough_witness :
    (∀ r ∈ (["/abs/out/sfx/cry.ogg", "laugh.ogg"] : List String),
      lastSplit (audioFilePath "" r) '.' ≠ "json") ∧
    (processFiles defaultJsonOpts
        ((["/abs/out/sfx/cry.ogg", "laugh.ogg"] : List String).map
          (audioFilePath "")) sampleManifest =
      { json := sampleManifest,
        outs := (["/abs/out/sfx/cry.ogg", "laugh.ogg"] : List String).map
          (audioFilePath ""), effs := [] } ∧
    ∀ r, audioFilePath "" r =
      if containsChar r '/' then pjoin "" r else r) :=
  ⟨by decide, audio_resources_passthrough defaultJsonOpts ""
    ["/abs/out/sfx/cry.ogg", "laugh.ogg"] sampleManifest (by decide)⟩

/-- C8: a configured transform callback is applied to exactly the
manifest with already-rewritten bare resource names (first argument),
the final manifest path (second argument), and the original pre-rewrite
resource list (third argument); the first argument's resource names
contain no separators. -/
theorem callback_gets_original_paths
    (f : Manifest → String → List String → Manifest) (jsonOpts : JsonOpts)
    (outputPath : String) (m : Manifest) (h : jsonOpts.transform = some f) :
    (reconcileManifest jsonOpts outputPath m).1 =
      f { m with resources := m.resources.map (fun r => lastSplit r '/') }
        (manifestOutPath jsonOpts outputPath) m.resources ∧
    ∀ r ∈ m.resources.map (fun r => lastSplit r '/'),
      containsChar r '/' = false := by
  refine ⟨?_, ?_⟩
  · simp [reconcileManifest, h]
  · intro r hr
    rcases List.mem_map.mp hr with ⟨a, _, rfl⟩
    exact containsChar_lastSplit a '/'

/-- C8 witness: the theorem at a concrete recording callback, showing
the third argument is the raw list while the first argument's manifest
is already rewritten. -/
theorem callback_gets_original_paths_witness :
    recordingJsonOpts.transform = some recordingCallback ∧
    ((reconcileManifest recordingJsonOpts "/abs/out/sfx/sfx.json"
        sampleManifest).1 =
      recordingCallback
        { sampleManifest with resources :=
            sampleManifest.resources.map (fun r => lastSplit r '/') }
        (manifestOutPath recordingJsonOpts "/abs/out/sfx/sfx.json")
        sampleManifest.resources ∧
    ∀ r ∈ sampleManifest.resources.map (fun r => lastSplit r '/'),
      containsChar r '/' = false) :=
  ⟨rfl, callback_gets_original_paths recordingCallback recordingJsonOpts
    "/abs/out/sfx/sfx.json" sampleManifest rfl⟩

/-- C9: reconciliation is idempotent on manifest bytes when no
transform callback is configured: re-running the manifest branch with
the same raw manifest path and options over the working manifest it
already produced yields the same manifest value and byte-identical
serialised content (same-input determinism holds a fortiori since the
embedding is a pure function). -/
theorem reconcile_idempotent (jsonOpts : JsonOpts) (outputPath : String)
    (m : Manifest) (h : jsonOpts.transform = none) :
    (reconcileManifest jsonOpts outputPath
        ((reconcileManifest jsonOpts outputPath m).1)).2.2 =
      (reconcileManifest jsonOpts outputPath m).2.2 ∧
    (reconcileManifest jsonOpts outputPath
        ((reconcileManifest jsonOpts outputPath m).1)).1 =
      (reconcileManifest jsonOpts outputPath m).1 := by
  have hfix := map_lastSplit_fix m.resources
  constructor
  · simp only [reconcileManifest, h]
    simp [hfix]
  · simp only [reconcileManifest, h]
    simp [hfix]

/-- C9 witness: the theorem at the scenario manifest and path. -/
theorem reconcile_idempotent_witness :
    defaultJsonOpts.transform = none ∧
    ((reconcileManifest defaultJsonOpts "/abs/out/sfx/sfx.json"
        ((reconcileManifest defaultJsonOpts "/abs/out/sfx/sfx.json"
          sampleManifest).1)).2.2 =
      (reconcileManifest defaultJsonOpts "/abs/out/sfx/sfx.json"
        sampleManifest).2.2 ∧
    (reconcileManifest defaultJsonOpts "/abs/out/sfx/sfx.json"
        ((reconcileManifest defaultJsonOpts "/abs/out/sfx/sfx.json"
          sampleManifest).1)).1 =
      (reconcileManifest defaultJsonOpts "/abs/out/sfx/sfx.json"
        sampleManifest).1) :=
  ⟨rfl, reconcile_idempotent defaultJsonOpts "/abs/out/sfx/sfx.json"
    sampleManifest rfl⟩

/-- C10: joining a dotted import list removes only the first `.` of
the whole joined string, so with two dot-prefixed extensions the
second keeps its dot in the glob alternatives, and a file carrying the
second extension (but not a doubled-dot name) is not collected. -/
theorem dotted_imports_drop_files (e1 e2 dir file : String)
    (h1 : ',' ∉ e1.data) (h2 : ',' ∉ e2.data)
    (h3 : jsEndsWith file ("." ++ e1) = false)
    (h4 : jsEndsWith file ("." ++ ("." ++ e2)) = false) :
    importsFormatsOf ["." ++ e1, "." ++ e2] = e1 ++ ("," ++ ("." ++ e2)) ∧
    globMatch dir (e1 ++ ("," ++ ("." ++ e2))) file = false := by
  have hdata : (e1 ++ ("," ++ ("." ++ e2))).data =
      e1.data ++ ',' :: '.' :: e2.data := by
    simp [data_append]
  have hsplit : jsSplit (e1 ++ ("," ++ ("." ++ e2))) ',' =
      [e1, "." ++ e2] := by
    simp only [jsSplit, hdata]
    rw [splitCharAux_append_sep ',' e1.data ('.' :: e2.data) [] h1]
    rw [splitCharAux_of_not_mem ',' ('.' :: e2.data) [] (by simp [h2])]
    simp only [List.map_cons, List.map_nil, List.reverse_nil, List.nil_append,
      List.append_nil]
    rfl
  constructor
  · show jsReplaceFirst (jsJoin "," ["." ++ e1, "." ++ e2]) "." "" = _
    have hjoin : jsJoin "," ["." ++ e1, "." ++ e2] =
        ("." ++ e1) ++ "," ++ ("." ++ e2) := rfl
    rw [hjoin]
    show String.mk (replaceFirstL ['.'] []
      ((("." ++ e1) ++ "," ++ ("." ++ e2)).data)) = _
    have hd2 : ((("." ++ e1) ++ "," ++ ("." ++ e2)).data) =
        '.' :: (e1.data ++ ',' :: '.' :: e2.data) := by
      simp [data_append]
    rw [hd2]
    rw [show replaceFirstL ['.'] [] ('.' :: (e1.data ++ ',' :: '.' :: e2.data)) =
        e1.data ++ ',' :: '.' :: e2.data from by
      simp [replaceFirstL, List.isPrefixOf]]
    rw [← hdata]
  · simp only [globMatch, hsplit]
    simp only [List.any_cons, List.any_nil, h3]
    have h4' : jsEndsWith file ("." ++ ("." ++ e2)) = false := h4
    rw [h4']
    simp

/-- C10 witness: `imports = ['.wav', '.mp3']` yields the glob
alternatives `wav,.mp3`, and `laugh.mp3` under the tagged folder is
not collected. -/
theorem dotted_imports_drop_files_witness :
    (',' ∉ ("wav" : String).data ∧ ',' ∉ ("mp3" : String).data ∧
     jsEndsWith "/raw/sfx/laugh.mp3" ("." ++ "wav") = false ∧
     jsEndsWith "/raw/sfx/laugh.mp3" ("." ++ ("." ++ "mp3")) = false) ∧
    (importsFormatsOf ["." ++ "wav", "." ++ "mp3"] =
      "wav" ++ ("," ++ ("." ++ "mp3")) ∧
    globMatch "/raw/sfx" ("wav" ++ ("," ++ ("." ++ "mp3")))
      "/raw/sfx/laugh.mp3" = false) :=
  ⟨⟨by decide, by decide, by decide, by decide⟩,
    dotted_imports_drop_files "wav" "mp3" "/raw/sfx" "/raw/sfx/laugh.mp3"
      (by decide) (by decide) (by decide) (by decide)⟩

end AP
